import Mathlib

/-!
# Verification of the DecentClaude plugin system core

Shallow embedding of `src/plugins/core/` (version.py, dependencies.py,
manifest.py, config.py, loader.py) together with proofs of the behavioural
claims about it.

Conventions of the embedding:
* Python dicts are association lists (`List (String × α)`); keys are unique
  in every dict produced by the source, lookups return the first match.
* Python values stored in configuration trees and manifests are modelled by
  the JSON-like type `PyVal` (the manifests and configs are parsed JSON).
* Raising an exception is modelled with `Except`; a caught exception is a
  handled `.error` branch.
* Python regular expressions in the source are anchored character-class
  patterns; they are modelled over ASCII characters (the idealization of
  Python's Unicode-aware `\d` and `re.IGNORECASE` to their ASCII meaning).
-/

namespace DecentClaude

/-- A Python/JSON value as stored in manifests and configuration trees. -/
inductive PyVal where
  | dict (entries : List (String × PyVal))
  | arr (items : List PyVal)
  | str (s : String)
  | num (n : Int)
  | bool (b : Bool)
  | null

namespace PyVal

/-- Python truthiness (`bool(v)`) for the modelled values. -/
def truthy : PyVal → Bool
  | .dict es => !es.isEmpty
  | .arr xs => !xs.isEmpty
  | .str s => !(s == "")
  | .num n => !(n == 0)
  | .bool b => b
  | .null => false

/-- `isinstance(v, dict)`. -/
def isDict : PyVal → Bool
  | .dict _ => true
  | _ => false

/-- `isinstance(v, str)` (Python `bool` is not a `str`). -/
def isStr : PyVal → Bool
  | .str _ => true
  | _ => false

/-- `isinstance(v, list)` (Python `bool` is not a `list`). -/
def isList : PyVal → Bool
  | .arr _ => true
  | _ => false

end PyVal

/-- First-match association-list lookup: `d.get(k)` / `k in d` on a dict. -/
def alookup (k : String) : List (String × PyVal) → Option PyVal
  | [] => none
  | (k', v) :: rest => if k' = k then some v else alookup k rest

/-- Generic first-match association-list lookup (for non-`PyVal` tables). -/
def alookupG {α : Type} (k : String) : List (String × α) → Option α
  | [] => none
  | (k', v) :: rest => if k' = k then some v else alookupG k rest

/-- `d[k] = v` on a dict: replace the first binding of `k` in place, or
append a new binding at the end (Python dicts preserve insertion order). -/
def aset (k : String) (v : PyVal) : List (String × PyVal) → List (String × PyVal)
  | [] => [(k, v)]
  | (k', v') :: rest => if k' = k then (k, v) :: rest else (k', v') :: aset k v rest

/-- Remove the binding of `k` (`del d[k]`). -/
def aerase {α : Type} (k : String) : List (String × α) → List (String × α)
  | [] => []
  | (k', v') :: rest => if k' = k then rest else (k', v') :: aerase k rest

theorem alookup_aset_self (k : String) (v : PyVal) (d : List (String × PyVal)) :
    alookup k (aset k v d) = some v := by
  induction d with
  | nil => simp [aset, alookup]
  | cons hd tl ih =>
    obtain ⟨k', v'⟩ := hd
    by_cases h : k' = k <;> simp [aset, alookup, h, ih]

theorem alookup_aset_ne (k k' : String) (v : PyVal) (d : List (String × PyVal))
    (h : k ≠ k') : alookup k' (aset k v d) = alookup k' d := by
  induction d with
  | nil => simp [aset, alookup, h]
  | cons hd tl ih =>
    obtain ⟨k₀, v₀⟩ := hd
    by_cases h0 : k₀ = k
    · subst h0
      simp [aset, alookup, h]
    · simp [aset, alookup, h0, ih]

/-! ## version.py — `SemanticVersion` and `VersionChecker` -/

/-- The parsed components of a semantic version
(`major.minor.patch[-prerelease][+metadata]`). -/
structure SemanticVersion where
  major : Nat
  minor : Nat
  patch : Nat
  prerelease : String
  metadata : String
deriving Repr, DecidableEq

namespace SemanticVersion

/-- Characters allowed in the prerelease / metadata groups:
`[a-z0-9.-]` under `re.IGNORECASE`. -/
def isTagChar (c : Char) : Bool :=
  (('a' ≤ c && c ≤ 'z') || ('A' ≤ c && c ≤ 'Z') || c.isDigit || c == '.' || c == '-')

/-- Longest leading run of characters satisfying `p` plus the rest. -/
def spanChars (p : Char → Bool) : List Char → List Char × List Char
  | [] => ([], [])
  | c :: cs =>
    if p c then
      let (tk, rest) := spanChars p cs
      (c :: tk, rest)
    else ([], c :: cs)

/-- Decimal value of a digit run (the `int(...)` of a matched `\d+` group). -/
def digitsToNat (ds : List Char) : Nat :=
  ds.foldl (fun acc c => acc * 10 + (c.toNat - '0'.toNat)) 0

/-- Match a leading `\d+` group; fails when there is no leading digit. -/
def takeNat (cs : List Char) : Option (Nat × List Char) :=
  let (ds, rest) := spanChars Char.isDigit cs
  if ds.isEmpty then none else some (digitsToNat ds, rest)

/-- Match a leading literal character. -/
def takeChar (c : Char) : List Char → Option (List Char)
  | [] => none
  | c' :: rest => if c' = c then some rest else none

/-- The optional `(?:-([a-z0-9.-]+))?` group: if the next character is `-`,
a nonempty run of tag characters must follow. -/
def takeTag (lead : Char) (cs : List Char) : Option (String × List Char) :=
  match takeChar lead cs with
  | none => some ("", cs)
  | some rest =>
    let (tk, rest') := spanChars isTagChar rest
    if tk.isEmpty then none else some (⟨tk⟩, rest')

/-- The anchored match of
`^(\d+)\.(\d+)\.(\d+)(?:-([a-z0-9.-]+))?(?:\+([a-z0-9.-]+))?$`
(`SemanticVersion._parse`). -/
def parseCore (cs : List Char) : Option SemanticVersion := do
  let (ma, r1) ← takeNat cs
  let r2 ← takeChar '.' r1
  let (mi, r3) ← takeNat r2
  let r4 ← takeChar '.' r3
  let (pa, r5) ← takeNat r4
  let (pre, r6) ← takeTag '-' r5
  let (meta, r7) ← takeTag '+' r6
  if r7.isEmpty then some ⟨ma, mi, pa, pre, meta⟩ else none

/-- `SemanticVersion(version_string)`: a failed regex match raises
`ValueError(f"Invalid semantic version: {version_string}")`. -/
def parse (s : String) : Except String SemanticVersion :=
  match parseCore s.data with
  | some v => .ok v
  | none => .error ("Invalid semantic version: " ++ s)

/-- `__str__`. -/
def render (v : SemanticVersion) : String :=
  toString v.major ++ "." ++ toString v.minor ++ "." ++ toString v.patch
    ++ (if v.prerelease == "" then "" else "-" ++ v.prerelease)
    ++ (if v.metadata == "" then "" else "+" ++ v.metadata)

/-- `__eq__` (ignores build metadata). -/
def eqv (v w : SemanticVersion) : Bool :=
  v.major == w.major && v.minor == w.minor && v.patch == w.patch
    && v.prerelease == w.prerelease

/-- `__lt__`: numeric on `(major, minor, patch)`; a version without a
prerelease tag ranks above one with a tag; two tags compare as plain text. -/
def ltv (v w : SemanticVersion) : Bool :=
  if v.major ≠ w.major then decide (v.major < w.major)
  else if v.minor ≠ w.minor then decide (v.minor < w.minor)
  else if v.patch ≠ w.patch then decide (v.patch < w.patch)
  else if v.prerelease == "" && !(w.prerelease == "") then false
  else if !(v.prerelease == "") && w.prerelease == "" then true
  else if !(v.prerelease == "") && !(w.prerelease == "") then
    decide (v.prerelease < w.prerelease)
  else false

/-- `__le__` = `<` or `==`. -/
def lev (v w : SemanticVersion) : Bool := ltv v w || eqv v w

/-- `__gt__` = not `<=`. -/
def gtv (v w : SemanticVersion) : Bool := !lev v w

/-- `__ge__` = not `<`. -/
def gev (v w : SemanticVersion) : Bool := !ltv v w

/-- `is_compatible_with`: equal major component and `self >= required`. -/
def isCompatibleWith (v required : SemanticVersion) : Bool :=
  if v.major ≠ required.major then false
  else gev v required

end SemanticVersion

/-- `VersionChecker` (its constructor parses the system version string;
the default `"1.0.0"` parses successfully). -/
structure VersionChecker where
  system_version : SemanticVersion
deriving Repr, DecidableEq

/-- `VersionChecker.__init__(system_version)`. -/
def versionChecker (s : String) : Except String VersionChecker :=
  (SemanticVersion.parse s).map VersionChecker.mk

/-- `VersionChecker.check_plugin_compatibility(plugin_name, required_version)`:
the parse failure of the required-version string is caught and reported as
`(False, message)`; otherwise the compatibility verdict is reported. -/
def checkPluginCompatibility (c : VersionChecker) (plugin_name required_version : String) :
    Bool × String :=
  match SemanticVersion.parse required_version with
  | .error e => (false, "Invalid version format for " ++ plugin_name ++ ": " ++ e)
  | .ok required =>
    if c.system_version.isCompatibleWith required then
      (true, "Plugin " ++ plugin_name ++ " is compatible (requires "
        ++ required.render ++ ", have " ++ c.system_version.render ++ ")")
    else
      (false, "Plugin " ++ plugin_name ++ " requires version " ++ required.render
        ++ " or higher (current version: " ++ c.system_version.render ++ ")")

/-! ### Theory of the version ordering -/

namespace SemanticVersion

/-- The prerelease component under the ordering `__lt__` realises: an absent
tag (the empty string) ranks above every tag; tags compare as plain text. -/
def preKey (s : String) : WithTop String :=
  if s = "" then ⊤ else (s : WithTop String)

/-- The full comparison key of a version: lexicographic on
`(major, minor, patch, preKey prerelease)`, ignoring build metadata. -/
def key (v : SemanticVersion) : Nat ×ₗ (Nat ×ₗ (Nat ×ₗ WithTop String)) :=
  toLex (v.major, toLex (v.minor, toLex (v.patch, preKey v.prerelease)))

theorem preKey_lt_iff (a b : String) :
    preKey a < preKey b ↔ (a ≠ "" ∧ (b = "" ∨ a < b)) := by
  unfold preKey
  by_cases ha : a = "" <;> by_cases hb : b = ""
  · simp [ha, hb]
  · simp [ha, hb, WithTop.not_top_lt]
  · simp [ha, hb, WithTop.coe_lt_top]
  · simp [ha, hb, WithTop.coe_lt_coe]

theorem preKey_inj (a b : String) : preKey a = preKey b ↔ a = b := by
  unfold preKey
  by_cases ha : a = "" <;> by_cases hb : b = "" <;>
    simp [ha, hb, WithTop.top_ne_coe, WithTop.coe_ne_top, eq_comm]

theorem ltv_iff_key (v w : SemanticVersion) : ltv v w = true ↔ key v < key w := by
  unfold ltv key
  simp only [Prod.Lex.lt_iff, preKey_lt_iff]
  by_cases hM : v.major = w.major <;>
    by_cases hm : v.minor = w.minor <;>
      by_cases hp : v.patch = w.patch <;>
        by_cases hvp : v.prerelease = "" <;>
          by_cases hwp : w.prerelease = "" <;>
            simp [hM, hm, hp, hvp, hwp]

theorem eqv_iff_key (v w : SemanticVersion) : eqv v w = true ↔ key v = key w := by
  unfold eqv key
  constructor
  · intro h
    simp only [Bool.and_eq_true, beq_iff_eq] at h
    obtain ⟨⟨⟨h1, h2⟩, h3⟩, h4⟩ := h
    simp [h1, h2, h3, h4]
  · intro h
    have h' := congrArg ofLex h
    simp only [ofLex_toLex, Prod.mk.injEq] at h'
    obtain ⟨h1, h'⟩ := h'
    have h'' := congrArg ofLex h'
    simp only [ofLex_toLex, Prod.mk.injEq] at h''
    obtain ⟨h2, h''⟩ := h''
    have h''' := congrArg ofLex h''
    simp only [ofLex_toLex, Prod.mk.injEq] at h'''
    obtain ⟨h3, h4⟩ := h'''
    rw [preKey_inj] at h4
    simp [h1, h2, h3, h4]

theorem gev_iff_gt_or_eq (v r : SemanticVersion) :
    gev v r = true ↔ (ltv r v = true ∨ eqv v r = true) := by
  have h : gev v r = true ↔ ¬(ltv v r = true) := by unfold gev; simp
  rw [h, ltv_iff_key, ltv_iff_key, eqv_iff_key, not_lt, le_iff_lt_or_eq]
  constructor
  · rintro (h | h)
    · exact Or.inl h
    · exact Or.inr h.symm
  · rintro (h | h)
    · exact Or.inl h
    · exact Or.inr h.symm

end SemanticVersion

/-- C5: for all semantic versions `v` and `r`, `v.is_compatible_with(r)` is
true iff `v.major = r.major` and `v` is greater than or equal to `r` under the
defined ordering (strictly greater, or equal with build metadata ignored);
changing build metadata never changes the verdict; and the spec's three
examples (`2.3.0` vs `2.1.0` true, `1.9.0` vs `2.0.0` false, `2.0.0` vs
`2.1.0` false) evaluate as stated. -/
theorem C5_is_compatible_with_spec :
    (∀ v r : SemanticVersion, v.isCompatibleWith r = true ↔
      (v.major = r.major ∧ (SemanticVersion.ltv r v = true ∨ SemanticVersion.eqv v r = true))) ∧
    (∀ v r : SemanticVersion, ∀ m₁ m₂ : String,
      SemanticVersion.isCompatibleWith { v with metadata := m₁ } { r with metadata := m₂ }
        = v.isCompatibleWith r) ∧
    (SemanticVersion.parse "2.3.0" = .ok ⟨2, 3, 0, "", ""⟩ ∧
      SemanticVersion.isCompatibleWith ⟨2, 3, 0, "", ""⟩ ⟨2, 1, 0, "", ""⟩ = true) ∧
    (SemanticVersion.parse "1.9.0" = .ok ⟨1, 9, 0, "", ""⟩ ∧
      SemanticVersion.isCompatibleWith ⟨1, 9, 0, "", ""⟩ ⟨2, 0, 0, "", ""⟩ = false) ∧
    (SemanticVersion.parse "2.0.0" = .ok ⟨2, 0, 0, "", ""⟩ ∧
      SemanticVersion.isCompatibleWith ⟨2, 0, 0, "", ""⟩ ⟨2, 1, 0, "", ""⟩ = false) := by
  refine ⟨?_, ?_, ⟨by rfl, by rfl⟩, ⟨by rfl, by rfl⟩, ⟨by rfl, by rfl⟩⟩
  · intro v r
    unfold SemanticVersion.isCompatibleWith
    by_cases h : v.major = r.major
    · simp [h, SemanticVersion.gev_iff_gt_or_eq]
    · simp [h]
  · intro v r m₁ m₂
    cases v
    cases r
    rfl

/-- C9: `check_plugin_compatibility` always returns a `(bool, message)` pair
(it is a total function), and a malformed required-version string is caught:
the parse failure becomes `(false, "Invalid version format for ...")` instead
of propagating. -/
theorem C9_check_plugin_compatibility_never_raises :
    ∀ (c : VersionChecker) (name rv : String),
      (∃ b msg, checkPluginCompatibility c name rv = (b, msg)) ∧
      (∀ e, SemanticVersion.parse rv = .error e →
        checkPluginCompatibility c name rv
          = (false, "Invalid version format for " ++ name ++ ": " ++ e)) := by
  intro c name rv
  constructor
  · exact ⟨_, _, rfl⟩
  · intro e he
    unfold checkPluginCompatibility
    rw [he]

/-- Witness for C9 at the malformed string `"not.a.version"`. -/
theorem C9_witness :
    SemanticVersion.parse "not.a.version"
        = .error "Invalid semantic version: not.a.version" ∧
    checkPluginCompatibility ⟨⟨1, 0, 0, "", ""⟩⟩ "p" "not.a.version"
        = (false,
            "Invalid version format for p: Invalid semantic version: not.a.version") :=
  ⟨by rfl,
    (C9_check_plugin_compatibility_never_raises ⟨⟨1, 0, 0, "", ""⟩⟩ "p" "not.a.version").2
      "Invalid semantic version: not.a.version" (by rfl)⟩

/-! ## config.py — `PluginConfig` -/

/-- `key.split('.')` on the character list (Python `str.split` with a
one-character separator: empty segments are kept). -/
def splitDot : List Char → List (List Char)
  | [] => [[]]
  | c :: rest =>
    let r := splitDot rest
    if c = '.' then [] :: r
    else
      match r with
      | [] => [[c]]
      | h :: t => (c :: h) :: t

/-- The dot-separated segments of a configuration key. -/
def splitKey (key : String) : List String :=
  (splitDot key.data).map fun cs => ⟨cs⟩

/-- The loop of `PluginConfig.get`: descend while the current value is a
mapping containing the segment; otherwise return the default. -/
def getWalk (dflt : PyVal) : PyVal → List String → PyVal
  | v, [] => v
  | .dict es, k :: rest =>
    match alookup k es with
    | some v' => getWalk dflt v' rest
    | none => dflt
  | _, _ :: _ => dflt

/-- `PluginConfig.get(key, default)`. -/
def configGet (config_data : List (String × PyVal)) (key : String) (dflt : PyVal) : PyVal :=
  getWalk dflt (.dict config_data) (splitKey key)

/-- The loop of `PluginConfig.set`: create intermediate mappings for absent
segments; an existing non-mapping value along the path makes the Python code
raise a `TypeError` (membership test or item assignment on a non-dict),
modelled as `.error ()`. The failure always occurs before a fresh
intermediate mapping is created, so no partial mutation is lost by the
functional reading. -/
def setWalk (v : PyVal) : List (String × PyVal) → List String → Except Unit (List (String × PyVal))
  | cfg, [] => .ok cfg
  | cfg, [k] => .ok (aset k v cfg)
  | cfg, k :: rest =>
    match alookup k cfg with
    | none =>
      match setWalk v [] rest with
      | .ok sub => .ok (aset k (.dict sub) cfg)
      | .error e => .error e
    | some (.dict sub) =>
      match setWalk v sub rest with
      | .ok sub' => .ok (aset k (.dict sub') cfg)
      | .error e => .error e
    | some _ => .error ()

/-- `PluginConfig.set(key, value)`. -/
def configSet (config_data : List (String × PyVal)) (key : String) (v : PyVal) :
    Except Unit (List (String × PyVal)) :=
  setWalk v config_data (splitKey key)

mutual

/-- `PluginConfig._deep_update(target, source)` (the body of `update`):
fold the update's items, one key at a time, into the target. -/
def deepUpdate (target : List (String × PyVal)) : List (String × PyVal) → List (String × PyVal)
  | [] => target
  | (k, v) :: rest => deepUpdate (deepUpdateOne target k v) rest
termination_by source => sizeOf source

/-- One iteration of the `_deep_update` loop: when both the existing and the
update value at `k` are mappings they are merged recursively, otherwise the
update value replaces the existing binding wholesale. -/
def deepUpdateOne (target : List (String × PyVal)) (k : String) (v : PyVal) :
    List (String × PyVal) :=
  match v with
  | .dict sub =>
    match alookup k target with
    | some (.dict tsub) => aset k (.dict (deepUpdate tsub sub)) target
    | _ => aset k (.dict sub) target
  | _ => aset k v target
termination_by sizeOf v

end

/-- A value lookup along a path of segments, descending only through
mappings (used to state which paths exist in a configuration tree). -/
def pathLookup : PyVal → List String → Option PyVal
  | v, [] => some v
  | .dict es, k :: rest =>
    match alookup k es with
    | some v' => pathLookup v' rest
    | none => none
  | _, _ :: _ => none

/-- Some strict, existing segment path ends at a non-mapping value. -/
def blockedPath (cfg : List (String × PyVal)) (segs : List String) : Bool :=
  (List.range segs.length).any fun j =>
    0 < j &&
      match pathLookup (.dict cfg) (segs.take j) with
      | some v => !v.isDict
      | none => false

theorem alookup_eq_none_of_not_mem (k : String) (l : List (String × PyVal))
    (h : k ∉ l.map Prod.fst) : alookup k l = none := by
  induction l with
  | nil => rfl
  | cons hd tl ih =>
    obtain ⟨k', v'⟩ := hd
    simp only [List.map_cons, List.mem_cons] at h
    push_neg at h
    have h1 : ¬(k' = k) := fun he => h.1 he.symm
    simp [alookup, h1, ih h.2]

/-- The spec's description of the per-key outcome of `update(partial)`:
an update value that is a mapping merges key-by-key with an existing mapping;
any other combination replaces the existing value wholesale. -/
def mergedValue (existing : Option PyVal) (v : PyVal) : PyVal :=
  match v, existing with
  | .dict sub, some (.dict tsub) => .dict (deepUpdate tsub sub)
  | _, _ => v

theorem alookup_deepUpdateOne_self (target : List (String × PyVal)) (k : String) (v : PyVal) :
    alookup k (deepUpdateOne target k v) = some (mergedValue (alookup k target) v) := by
  cases v with
  | dict sub =>
    rw [deepUpdateOne]
    cases htv : alookup k target with
    | none => simp [mergedValue, htv, alookup_aset_self]
    | some tv => cases tv <;> simp [mergedValue, htv, alookup_aset_self]
  | arr xs => rw [deepUpdateOne] <;> simp [mergedValue, alookup_aset_self]
  | str s => rw [deepUpdateOne] <;> simp [mergedValue, alookup_aset_self]
  | num n => rw [deepUpdateOne] <;> simp [mergedValue, alookup_aset_self]
  | bool b => rw [deepUpdateOne] <;> simp [mergedValue, alookup_aset_self]
  | null => rw [deepUpdateOne] <;> simp [mergedValue, alookup_aset_self]

theorem alookup_deepUpdateOne_ne (target : List (String × PyVal)) (k k' : String) (v : PyVal)
    (h : k ≠ k') : alookup k' (deepUpdateOne target k v) = alookup k' target := by
  cases v with
  | dict sub =>
    rw [deepUpdateOne]
    cases htv : alookup k target with
    | none => simp [htv, alookup_aset_ne _ _ _ _ h]
    | some tv => cases tv <;> simp [htv, alookup_aset_ne _ _ _ _ h]
  | arr xs => rw [deepUpdateOne] <;> simp [alookup_aset_ne _ _ _ _ h]
  | str s => rw [deepUpdateOne] <;> simp [alookup_aset_ne _ _ _ _ h]
  | num n => rw [deepUpdateOne] <;> simp [alookup_aset_ne _ _ _ _ h]
  | bool b => rw [deepUpdateOne] <;> simp [alookup_aset_ne _ _ _ _ h]
  | null => rw [deepUpdateOne] <;> simp [alookup_aset_ne _ _ _ _ h]

theorem alookup_deepUpdate_not_mem (source target : List (String × PyVal)) (k : String)
    (h : k ∉ source.map Prod.fst) :
    alookup k (deepUpdate target source) = alookup k target := by
  induction source generalizing target with
  | nil => rw [deepUpdate]
  | cons hd rest ih =>
    obtain ⟨k₀, v₀⟩ := hd
    simp only [List.map_cons, List.mem_cons] at h
    push_neg at h
    rw [deepUpdate, ih _ h.2, alookup_deepUpdateOne_ne _ _ _ _ (fun he => h.1 he.symm)]

/-- C7: `update` is a recursive deep merge. For every target and update tree
(the update's keys unique at top level, as Python dicts guarantee), the value
of the updated tree at any key `k` is: the prior value when the update does
not mention `k`; the recursive merge when both values at `k` are mappings;
and the update's value wholesale otherwise. -/
theorem C7_update_deep_merge (source target : List (String × PyVal)) (k : String)
    (hnd : (source.map Prod.fst).Nodup) :
    alookup k (deepUpdate target source) =
      match alookup k source with
      | none => alookup k target
      | some v => some (mergedValue (alookup k target) v) := by
  induction source generalizing target with
  | nil => rw [deepUpdate]; rfl
  | cons hd rest ih =>
    obtain ⟨k₀, v₀⟩ := hd
    simp only [List.map_cons, List.nodup_cons] at hnd
    by_cases hk : k₀ = k
    · subst hk
      have hrest : k₀ ∉ rest.map Prod.fst := hnd.1
      rw [deepUpdate, alookup_deepUpdate_not_mem _ _ _ hrest,
        alookup_deepUpdateOne_self]
      simp [alookup]
    · rw [deepUpdate, ih _ hnd.2]
      have htarget := alookup_deepUpdateOne_ne target k₀ k v₀ hk
      cases hres : alookup k rest <;>
        simp [alookup, fun he : k₀ = k => hk he, hres, htarget]

/-- Witness for C7 at the spec's example:
`update({"a": {"x": 9}})` on `{"a": {"x": 1, "y": 2}}`. -/
theorem C7_witness :
    (([("a", PyVal.dict [("x", PyVal.num 9)])].map Prod.fst).Nodup) ∧
    alookup "a" (deepUpdate [("a", .dict [("x", .num 1), ("y", .num 2)])]
        [("a", .dict [("x", .num 9)])])
      = some (mergedValue (alookup "a" [("a", .dict [("x", .num 1), ("y", .num 2)])])
          (.dict [("x", .num 9)])) ∧
    deepUpdate [("a", .dict [("x", .num 1), ("y", .num 2)])] [("a", .dict [("x", .num 9)])]
      = [("a", PyVal.dict [("x", PyVal.num 9), ("y", PyVal.num 2)])] :=
  ⟨by decide,
    (C7_update_deep_merge [("a", .dict [("x", .num 9)])]
        [("a", .dict [("x", .num 1), ("y", .num 2)])] "a" (by decide)).trans (by rfl),
    by simp [deepUpdate, deepUpdateOne, alookup, aset]⟩

theorem blocked_walk (v dflt : PyVal) :
    ∀ (segs : List String) (cfg : List (String × PyVal)),
      (∃ j, 0 < j ∧ j < segs.length ∧
        ∃ w, pathLookup (.dict cfg) (segs.take j) = some w ∧ w.isDict = false) →
      setWalk v cfg segs = .error () ∧ getWalk dflt (.dict cfg) segs = dflt := by
  intro segs
  induction segs with
  | nil =>
    rintro cfg ⟨j, hj0, hjlen, -⟩
    simp at hjlen
  | cons k rest ih =>
    rintro cfg ⟨j, hj0, hjlen, w, hpath, hwd⟩
    cases j with
    | zero => omega
    | succ j' =>
      cases hu : alookup k cfg with
      | none => simp [pathLookup, hu] at hpath
      | some u =>
        simp only [List.take_succ_cons, pathLookup, hu] at hpath
        simp only [List.length_cons, Nat.add_lt_add_iff_right] at hjlen
        cases j' with
        | zero =>
          simp only [List.take_zero, pathLookup, Option.some.injEq] at hpath
          subst hpath
          obtain ⟨r0, rs, rfl⟩ : ∃ r0 rs, rest = r0 :: rs := by
            cases rest with
            | nil => simp at hjlen
            | cons r0 rs => exact ⟨r0, rs, rfl⟩
          cases u <;> simp_all [setWalk, getWalk, hu, PyVal.isDict]
        | succ j'' =>
          obtain ⟨r0, rs, rfl⟩ : ∃ r0 rs, rest = r0 :: rs := by
            cases rest with
            | nil => simp at hjlen
            | cons r0 rs => exact ⟨r0, rs, rfl⟩
          cases u with
          | dict sub =>
            have hrec := ih sub ⟨j'' + 1, Nat.succ_pos _, hjlen, w, hpath, hwd⟩
            refine ⟨?_, ?_⟩
            · have h1 := hrec.1
              simp only [setWalk, hu] at h1 ⊢
              rw [h1]
            · have h2 := hrec.2
              simp only [getWalk, hu] at h2 ⊢
              exact h2
          | arr xs => simp [List.take_succ_cons, pathLookup] at hpath
          | str s => simp [List.take_succ_cons, pathLookup] at hpath
          | num n => simp [List.take_succ_cons, pathLookup] at hpath
          | bool b => simp [List.take_succ_cons, pathLookup] at hpath
          | null => simp [List.take_succ_cons, pathLookup] at hpath

/-- C10: `set` is partial where `get` is total. Whenever some existing strict
segment path of the dot-separated key ends at a non-mapping value,
`set(key, value)` raises a `TypeError` (it creates intermediate mappings only
for absent segments, never replacing an existing non-mapping value), while
`get(key, default)` returns the default without raising. -/
theorem C10_set_partial_get_total (cfg : List (String × PyVal)) (key : String)
    (v dflt : PyVal) (hb : blockedPath cfg (splitKey key) = true) :
    configSet cfg key v = .error () ∧ configGet cfg key dflt = dflt := by
  unfold configSet configGet
  apply blocked_walk
  unfold blockedPath at hb
  rw [List.any_eq_true] at hb
  obtain ⟨j, hjmem, hj⟩ := hb
  rw [List.mem_range] at hjmem
  rw [Bool.and_eq_true] at hj
  obtain ⟨hj0, hjmatch⟩ := hj
  refine ⟨j, by simpa using hj0, hjmem, ?_⟩
  cases hp : pathLookup (.dict cfg) ((splitKey key).take j) with
  | none => rw [hp] at hjmatch; simp at hjmatch
  | some w =>
    rw [hp] at hjmatch
    simp only [Bool.not_eq_true'] at hjmatch
    exact ⟨w, rfl, hjmatch⟩

/-- Witness for C10: after `set("a", 1)` on an empty configuration,
`set("a.b", 2)` raises while `get("a.b", 42)` returns `42`. -/
theorem C10_witness :
    configSet [] "a" (.num 1) = .ok [("a", PyVal.num 1)] ∧
    blockedPath [("a", PyVal.num 1)] (splitKey "a.b") = true ∧
    (configSet [("a", PyVal.num 1)] "a.b" (.num 2) = .error () ∧
      configGet [("a", PyVal.num 1)] "a.b" (.num 42) = .num 42) :=
  ⟨by rfl, by rfl,
    C10_set_partial_get_total [("a", PyVal.num 1)] "a.b" (.num 2) (.num 42) (by rfl)⟩

/-! ## manifest.py — `ManifestValidator` -/

/-- `ManifestSchema.REQUIRED_FIELDS`. -/
def REQUIRED_FIELDS : List String := ["name", "version", "type", "entry_point"]

/-- `ManifestSchema.VALID_TYPES`. -/
def VALID_TYPES : List String :=
  ["hook", "validator", "quality_check", "cli_utility", "integration", "custom"]

/-- Python `str()` as used by f-string interpolation of non-`str` values
(container rendering follows `repr`; string escapes are not modelled). -/
def pyRepr : PyVal → String
  | .dict es =>
    "\x7b" ++ String.intercalate ", "
      (es.attach.map fun p => "'" ++ p.1.1 ++ "': " ++ pyRepr p.1.2) ++ "\x7d"
  | .arr xs => "[" ++ String.intercalate ", " (xs.attach.map fun x => pyRepr x.1) ++ "]"
  | .str s => "'" ++ s ++ "'"
  | .num n => toString n
  | .bool b => if b then "True" else "False"
  | .null => "None"
decreasing_by
  all_goals simp_wf
  · have h := List.sizeOf_lt_of_mem p.2
    obtain ⟨⟨a, b⟩, hp⟩ := p
    simp_all
    omega
  · have h := List.sizeOf_lt_of_mem x.2
    omega

/-- Python `str()`: identical to `repr` except on strings. -/
def pyStr : PyVal → String
  | .str s => s
  | v => pyRepr v

/-- A character of the name pattern `^[a-z0-9_-]+$`. -/
def isNameChar (c : Char) : Bool :=
  ('a' ≤ c && c ≤ 'z') || c.isDigit || c == '_' || c == '-'

/-- Anchored match of `^[a-z0-9_-]+$`. -/
def nameMatches (s : String) : Bool :=
  !s.data.isEmpty && s.data.all isNameChar

/-- A character of the entry-point pattern `^[a-zA-Z0-9_.:]+$`. -/
def isEntryPointChar (c : Char) : Bool :=
  c.isAlpha || c.isDigit || c == '_' || c == '.' || c == ':'

/-- Anchored match of `^[a-zA-Z0-9_.:]+$`. -/
def entryPointMatches (s : String) : Bool :=
  !s.data.isEmpty && s.data.all isEntryPointChar

/-- Anchored match of the manifest version pattern
`^\d+\.\d+\.\d+(-[a-z0-9.-]+)?(\+[a-z0-9.-]+)?$` (same language as the
`SemanticVersion._parse` pattern). -/
def semverMatches (s : String) : Bool :=
  (SemanticVersion.parseCore s.data).isSome

/-- Anchored match of `^\d+\.\d+\.\d+$` (`_validate_requires_version`). -/
def reqVersionMatches (cs : List Char) : Bool :=
  match SemanticVersion.takeNat cs with
  | none => false
  | some (_, r1) =>
    match SemanticVersion.takeChar '.' r1 with
    | none => false
    | some r2 =>
      match SemanticVersion.takeNat r2 with
      | none => false
      | some (_, r3) =>
        match SemanticVersion.takeChar '.' r3 with
        | none => false
        | some r4 =>
          match SemanticVersion.takeNat r4 with
          | none => false
          | some (_, r5) => r5.isEmpty

/-- `_validate_required_fields`: one message per absent required field. -/
def validateRequiredFields (m : List (String × PyVal)) : List String :=
  REQUIRED_FIELDS.filterMap fun f =>
    if (alookup f m).isNone then some ("Missing required field: " ++ f) else none

/-- `_validate_name`: a falsy value returns silently; a truthy non-string
reaches `re.match` and raises `TypeError` (modelled as `.error ()`). -/
def validateName (v : Option PyVal) : Except Unit (List String) :=
  match v with
  | none => .ok []
  | some w =>
    if !w.truthy then .ok []
    else
      match w with
      | .str s =>
        .ok (if nameMatches s then []
          else ["Invalid plugin name '" ++ s ++ "'. Must contain only lowercase letters, numbers, hyphens, and underscores"])
      | _ => .error ()

/-- `_validate_version`: same falsy/`TypeError` behaviour as the name check. -/
def validateVersion (v : Option PyVal) : Except Unit (List String) :=
  match v with
  | none => .ok []
  | some w =>
    if !w.truthy then .ok []
    else
      match w with
      | .str s =>
        .ok (if semverMatches s then []
          else ["Invalid version '" ++ s ++ "'. Must follow semantic versioning (e.g., 1.0.0)"])
      | _ => .error ()

/-- `_validate_type`: membership in `VALID_TYPES`; never raises (the `in`
test works for every value). -/
def validateType (v : Option PyVal) : List String :=
  match v with
  | none => []
  | some w =>
    if !w.truthy then []
    else
      match w with
      | .str s =>
        if s ∈ VALID_TYPES then []
        else ["Invalid plugin type '" ++ s ++ "'. Must be one of: "
          ++ String.intercalate ", " VALID_TYPES]
      | _ => ["Invalid plugin type '" ++ pyStr w ++ "'. Must be one of: "
          ++ String.intercalate ", " VALID_TYPES]

/-- `_validate_entry_point`: same falsy/`TypeError` behaviour as the name
check. -/
def validateEntryPoint (v : Option PyVal) : Except Unit (List String) :=
  match v with
  | none => .ok []
  | some w =>
    if !w.truthy then .ok []
    else
      match w with
      | .str s =>
        .ok (if entryPointMatches s then []
          else ["Invalid entry_point '" ++ s ++ "'. Must be a valid Python module path (e.g., 'module.ClassName')"])
      | _ => .error ()

/-- `_validate_dependencies` (argument defaulted to `[]`): a non-list value
yields one message and returns; list elements must be strings. -/
def validateDependenciesField (v : PyVal) : List String :=
  match v with
  | .arr xs =>
    xs.filterMap fun dep =>
      if dep.isStr then none
      else some ("Invalid dependency: " ++ pyStr dep ++ ". Must be a string")
  | _ => ["Dependencies must be a list"]

/-- `_validate_requires_version` (argument defaulted to `"0.0.0"`): falsy
returns silently; a truthy non-string raises `TypeError`. -/
def validateRequiresVersion (v : PyVal) : Except Unit (List String) :=
  if !v.truthy then .ok []
  else
    match v with
    | .str s =>
      .ok (if reqVersionMatches s.data then []
        else ["Invalid requires_version '" ++ s ++ "'. Must be semantic version (e.g., 1.0.0)"])
    | _ => .error ()

/-- `ManifestValidator.validate`: runs every check in order, collecting all
messages into `self.errors` (retrieved by `get_errors()`), and returns
whether the collection is empty. A `TypeError` raised by a check propagates
out of `validate` (`.error ()`). -/
def validateManifest (m : List (String × PyVal)) : Except Unit (Bool × List String) := do
  let e1 := validateRequiredFields m
  let e2 ← validateName (alookup "name" m)
  let e3 ← validateVersion (alookup "version" m)
  let e4 := validateType (alookup "type" m)
  let e5 ← validateEntryPoint (alookup "entry_point" m)
  let e6 := validateDependenciesField ((alookup "dependencies" m).getD (.arr []))
  let e7 ← validateRequiresVersion ((alookup "requires_version" m).getD (.str "0.0.0"))
  let errs := e1 ++ e2 ++ e3 ++ e4 ++ e5 ++ e6 ++ e7
  return (errs.isEmpty, errs)

/-- C8 (amended): whenever `validate(manifest)` completes without raising —
a present truthy non-string `name`/`version`/`entry_point`/`requires_version`
value makes `re.match` raise `TypeError` — and the manifest misses required
fields, the result is `False` and, for each missing required field, the
message naming that field is collected in `get_errors()`; all applicable
checks run, so every missing field is reported at once. -/
theorem C8_validate_missing_required_fields (m : List (String × PyVal))
    (b : Bool) (errs : List String)
    (hok : validateManifest m = .ok (b, errs)) :
    ∀ f ∈ REQUIRED_FIELDS, alookup f m = none →
      b = false ∧ ("Missing required field: " ++ f) ∈ errs := by
  intro f hf hnone
  unfold validateManifest at hok
  cases h2 : validateName (alookup "name" m) with
  | error e => rw [h2] at hok; simp [Bind.bind, Except.bind] at hok
  | ok e2 =>
  cases h3 : validateVersion (alookup "version" m) with
  | error e => rw [h2, h3] at hok; simp [Bind.bind, Except.bind] at hok
  | ok e3 =>
  cases h5 : validateEntryPoint (alookup "entry_point" m) with
  | error e => rw [h2, h3, h5] at hok; simp [Bind.bind, Except.bind] at hok
  | ok e5 =>
  cases h7 : validateRequiresVersion ((alookup "requires_version" m).getD (.str "0.0.0")) with
  | error e => rw [h2, h3, h5, h7] at hok; simp [Bind.bind, Except.bind] at hok
  | ok e7 =>
  rw [h2, h3, h5, h7] at hok
  simp only [Bind.bind, Except.bind, pure, Except.pure, Except.ok.injEq, Prod.mk.injEq] at hok
  obtain ⟨hb, herrs⟩ := hok
  have hmem : ("Missing required field: " ++ f) ∈ validateRequiredFields m := by
    apply List.mem_filterMap.mpr
    exact ⟨f, hf, by simp [hnone]⟩
  have hmem' : ("Missing required field: " ++ f) ∈ errs := by
    rw [← herrs]
    simp [List.mem_append, hmem]
  refine ⟨?_, hmem'⟩
  rw [← hb]
  cases herrs' : errs with
  | nil => rw [herrs'] at hmem'; exact absurd hmem' (List.not_mem_nil _)
  | cons a l => rw [herrs, herrs']; rfl

/-- C8 counterexample: the manifest `\x7b"name": 5\x7d` misses the required
fields `version`, `type` and `entry_point`, yet `validate` does not return
`False` — it raises a `TypeError`, because the truthy non-string name `5`
reaches `re.match`. -/
theorem C8_counterexample :
    validateManifest [("name", PyVal.num 5)] = .error () ∧
    ∀ r : Bool × List String, validateManifest [("name", PyVal.num 5)] ≠ .ok r := by
  refine ⟨by rfl, fun r h => ?_⟩
  rw [show validateManifest [("name", PyVal.num 5)] = .error () from rfl] at h
  exact Except.noConfusion h

/-- Witness for C8 on the manifest `\x7b"name": "good"\x7d`. -/
theorem C8_witness :
    validateManifest [("name", PyVal.str "good")]
        = .ok (false, ["Missing required field: version", "Missing required field: type",
            "Missing required field: entry_point"]) ∧
    "version" ∈ REQUIRED_FIELDS ∧
    alookup "version" [("name", PyVal.str "good")] = none ∧
    (false = false ∧ ("Missing required field: " ++ "version")
      ∈ ["Missing required field: version", "Missing required field: type",
          "Missing required field: entry_point"]) :=
  ⟨by rfl, by decide, by rfl,
    C8_validate_missing_required_fields [("name", PyVal.str "good")] false
      ["Missing required field: version", "Missing required field: type",
        "Missing required field: entry_point"] (by rfl) "version" (by decide) (by rfl)⟩

/-! ## dependencies.py — `DependencyResolver` -/

/-- Generic insertion-ordered dict update (same behaviour as `aset`). -/
def asetG {α : Type} (k : String) (v : α) : List (String × α) → List (String × α)
  | [] => [(k, v)]
  | (k', v') :: rest => if k' = k then (k, v) :: rest else (k', v') :: asetG k v rest

/-- The `DependencyError` kinds `resolve()` raises. -/
inductive DepError where
  | circular (node : String)
  | missing (plugin dep : String)
deriving Repr, DecidableEq

/-- The exception messages (the f-strings of the source). -/
def DepError.message : DepError → String
  | .circular node => "Circular dependency detected involving plugin: " ++ node
  | .missing plugin dep =>
    "Plugin '" ++ plugin ++ "' requires '" ++ dep ++ "' which is not available"

/-- The resolver state built by `add_plugin`: `dependency_graph` as an
insertion-ordered dict from plugin name to its dependency list.
`available_plugins` always equals this dict's key set, because only
`add_plugin` mutates either. -/
abbrev DepGraph := List (String × List String)

/-- The registered plugin names. -/
def keysOf (g : DepGraph) : List String := g.map Prod.fst

/-- `self.dependency_graph.get(node, [])`. -/
def depsOf (g : DepGraph) (n : String) : List String := (alookupG n g).getD []

/-- `add_plugin(plugin_name, dependencies)`: registers or overwrites. -/
def addPlugin (g : DepGraph) (plugin_name : String) (dependencies : List String) : DepGraph :=
  asetG plugin_name dependencies g

/-- The first `(plugin, dep)` violation found by `_validate_dependencies`,
iterating plugins in registration order and each dependency list in order. -/
def findMissing (avail : List String) : DepGraph → Option (String × String)
  | [] => none
  | (p, deps) :: rest =>
    match deps.find? (fun d => !(decide (d ∈ avail))) with
    | some d => some (p, d)
    | none => findMissing avail rest

/-- `_validate_dependencies`: raises `MissingDependencyError` at the first
dependency that is not a registered plugin. -/
def validateDependencies (g : DepGraph) : Except DepError Unit :=
  match findMissing (keysOf g) g with
  | some (p, d) => .error (.missing p d)
  | none => .ok ()

/-- The mutable state threaded through the depth-first search of `resolve`:
the `visited` set (modelled as the list of elements in insertion order) and
the accumulating `load_order` list. -/
structure VisitState where
  visited : List String
  load_order : List String
deriving Repr, DecidableEq

theorem alookupG_mem_keys {α : Type} {g : List (String × α)} {n : String} {v : α}
    (h : alookupG n g = some v) : n ∈ g.map Prod.fst := by
  induction g with
  | nil => simp [alookupG] at h
  | cons hd tl ih =>
    obtain ⟨k, w⟩ := hd
    by_cases hk : k = n
    · subst hk; simp
    · simp only [alookupG, if_neg hk] at h
      simp [ih h]

theorem length_filter_mono_aux (p q : String → Bool) (l : List String)
    (himp : ∀ a, q a = true → p a = true) :
    (l.filter q).length ≤ (l.filter p).length := by
  induction l with
  | nil => simp
  | cons a l ih =>
    cases hq : q a with
    | true =>
      have hp := himp a hq
      simp [List.filter_cons, hq, hp]
      omega
    | false =>
      cases hp : p a <;> simp [List.filter_cons, hq, hp] <;> omega

theorem length_filter_lt_aux (p q : String → Bool) (l : List String)
    (himp : ∀ a, q a = true → p a = true)
    (x : String) (hx : x ∈ l) (hpx : p x = true) (hqx : q x = false) :
    (l.filter q).length < (l.filter p).length := by
  induction l with
  | nil => cases hx
  | cons a l ih =>
    rcases List.mem_cons.mp hx with rfl | hx'
    · have hmono := length_filter_mono_aux p q l himp
      simp [List.filter_cons, hqx, hpx]
      omega
    · cases hqa : q a with
      | true =>
        have hpa := himp a hqa
        simp [List.filter_cons, hqa, hpa]
        exact ih hx'
      | false =>
        cases hpa : p a <;> simp [List.filter_cons, hqa, hpa]
        · exact ih hx'
        · exact Nat.lt_succ_of_lt (ih hx')

mutual

/-- The recursive `visit(node)` of `resolve`: an in-progress (`temp_mark`)
node signals a cycle; a done (`visited`) node returns unchanged; otherwise
the node's dependencies are visited with the node marked in-progress, after
which the node is appended to the load order. A node absent from the graph
dict has no dependency list, so its loop body is empty (the `none` branch). -/
def visit (g : DepGraph) (temp : List String) (node : String) (s : VisitState) :
    Except DepError VisitState :=
  if node ∈ temp then .error (.circular node)
  else if node ∈ s.visited then .ok s
  else
    match h : alookupG node g with
    | none => .ok ⟨node :: s.visited, s.load_order ++ [node]⟩
    | some deps =>
      match visitList g (node :: temp) deps s with
      | .error e => .error e
      | .ok s' => .ok ⟨node :: s'.visited, s'.load_order ++ [node]⟩
termination_by ((((keysOf g).filter fun k => !(decide (k ∈ temp))).length, 0) : Nat × Nat)
decreasing_by
  simp_wf
  apply Prod.Lex.left
  refine length_filter_lt_aux _ _ _ ?_ node (alookupG_mem_keys h) ?_ ?_
  · intro a ha
    simp only [Bool.and_eq_true, Bool.not_eq_true', decide_eq_false_iff_not] at ha ⊢
    exact ha.2
  · simp only [Bool.not_eq_true', decide_eq_false_iff_not]
    assumption
  · simp

/-- The `for dep in self.dependency_graph.get(node, []): visit(dep)` loop. -/
def visitList (g : DepGraph) (temp : List String) (deps : List String) (s : VisitState) :
    Except DepError VisitState :=
  match deps with
  | [] => .ok s
  | d :: rest =>
    match visit g temp d s with
    | .error e => .error e
    | .ok s' => visitList g temp rest s'
termination_by
  ((((keysOf g).filter fun k => !(decide (k ∈ temp))).length, deps.length + 1) : Nat × Nat)
decreasing_by
  · simp_wf
    apply Prod.Lex.right
    omega
  · simp_wf
    apply Prod.Lex.right
    omega

end

/-- The `for plugin in self.available_plugins: if plugin not in visited:
visit(plugin)` loop of `resolve`. Python iterates the `available_plugins`
set in an unspecified order; the embedding fixes registration order. -/
def visitFold (g : DepGraph) : List String → VisitState → Except DepError VisitState
  | [], s => .ok s
  | p :: rest, s =>
    if p ∈ s.visited then visitFold g rest s
    else
      match visit g [] p s with
      | .error e => .error e
      | .ok s' => visitFold g rest s'

/-- `DependencyResolver.resolve()`. -/
def resolve (g : DepGraph) : Except DepError (List String) :=
  match validateDependencies g with
  | .error e => .error e
  | .ok _ =>
    match visitFold g (keysOf g) ⟨[], []⟩ with
    | .error e => .error e
    | .ok s => .ok s.load_order

/-- `get_dependents(plugin_name)`: plugins whose dependency list names it,
in registration order. -/
def getDependents (g : DepGraph) (plugin_name : String) : List String :=
  g.filterMap fun p => if plugin_name ∈ p.2 then some p.1 else none

/-- `can_unload(plugin_name)`. -/
def canUnload (g : DepGraph) (plugin_name : String) : Bool :=
  (getDependents g plugin_name).isEmpty

/-! ### Theory of the dependency graph and of `resolve` -/

/-- `Edge g a b`: plugin `a` declares a dependency on `b` (an edge of the
"depends on" graph the resolver walks). -/
def Edge (g : DepGraph) (a b : String) : Prop := b ∈ depsOf g a

/-- `x` lies on a dependency cycle. -/
def OnCycle (g : DepGraph) (x : String) : Prop := Relation.TransGen (Edge g) x x

/-- The graph has no dependency cycle. -/
def Acyclic (g : DepGraph) : Prop := ∀ x, ¬ OnCycle g x

/-- Every declared dependency names a registered plugin. -/
def AllDepsRegistered (g : DepGraph) : Prop :=
  ∀ p ∈ g, ∀ d ∈ p.2, d ∈ keysOf g

instance (g : DepGraph) : Decidable (AllDepsRegistered g) := by
  unfold AllDepsRegistered
  infer_instance

/-- The `temp_mark` stack is a chain of edges leading to the current node:
its head is the caller of the current visit, and each stack entry was called
by the one below it. -/
def PathOK (g : DepGraph) : String → List String → Prop
  | _, [] => True
  | node, t :: rest => Edge g t node ∧ PathOK g t rest

/-- Topological soundness of a produced order: every element's declared
dependencies occur strictly earlier in the list. -/
def TopoOK (g : DepGraph) (l : List String) : Prop :=
  ∀ i (hi : i < l.length), ∀ d ∈ depsOf g (l.get ⟨i, hi⟩), d ∈ l.take i

/-- The invariant tying the search state together: `visited` mirrors
`load_order` (same elements, newest first), the order has no duplicates, and
it is topologically sound so far. -/
def GoodState (g : DepGraph) (s : VisitState) : Prop :=
  s.visited = s.load_order.reverse ∧ s.load_order.Nodup ∧ TopoOK g s.load_order

theorem pathok_transGen (g : DepGraph) :
    ∀ (temp : List String) (node y : String), PathOK g node temp → y ∈ temp →
      Relation.TransGen (Edge g) y node := by
  intro temp
  induction temp with
  | nil => intro node y _ hy; cases hy
  | cons t rest ih =>
    intro node y hp hy
    obtain ⟨hE, hP⟩ := hp
    rcases List.mem_cons.mp hy with rfl | hy'
    · exact Relation.TransGen.single hE
    · exact Relation.TransGen.tail (ih t y hP hy') hE

theorem alookupG_mem {α : Type} {g : List (String × α)} {n : String} {v : α}
    (h : alookupG n g = some v) : (n, v) ∈ g := by
  induction g with
  | nil => simp [alookupG] at h
  | cons hd tl ih =>
    obtain ⟨k, w⟩ := hd
    by_cases hk : k = n
    · subst hk
      simp only [alookupG, if_pos rfl] at h
      simp [alookupG] at h
      simp [h]
    · simp only [alookupG, if_neg hk] at h
      simp [ih h]

theorem depsOf_subset_keys {g : DepGraph} (hdeps : AllDepsRegistered g) (n : String) :
    ∀ d ∈ depsOf g n, d ∈ keysOf g := by
  intro d hd
  unfold depsOf at hd
  cases h : alookupG n g with
  | none => rw [h] at hd; cases hd
  | some deps =>
    rw [h] at hd
    exact hdeps (n, deps) (alookupG_mem h) d hd

theorem edge_mem_keys {g : DepGraph} {a b : String} (h : Edge g a b) : a ∈ keysOf g := by
  unfold Edge depsOf at h
  cases ha : alookupG a g with
  | none => rw [ha] at h; cases h
  | some deps => exact alookupG_mem_keys ha

theorem mem_take_indexOf_lt (l : List String) (i : Nat) (b : String) :
    b ∈ l.take i → l.indexOf b < i := by
  induction l generalizing i with
  | nil => simp
  | cons a l ih =>
    intro hb
    cases i with
    | zero => simp at hb
    | succ i' =>
      rw [List.take_succ_cons] at hb
      rcases List.mem_cons.mp hb with rfl | hb'
      · simp [List.indexOf_cons_self]
      · by_cases hab : a = b
        · subst hab; simp [List.indexOf_cons_self]
        · rw [List.indexOf_cons_ne _ (by exact fun he => hab (by simpa using he))]
          exact Nat.succ_lt_succ (ih i' hb')

theorem topo_edge_indexOf {g : DepGraph} {ord : List String}
    (htopo : TopoOK g ord) {a b : String} (ha : a ∈ ord) (hE : Edge g a b) :
    ord.indexOf b < ord.indexOf a := by
  have hlen : ord.indexOf a < ord.length := List.indexOf_lt_length.mpr ha
  have hget : ord.get ⟨ord.indexOf a, hlen⟩ = a := List.indexOf_get hlen
  have hb : b ∈ ord.take (ord.indexOf a) := by
    apply htopo (ord.indexOf a) hlen
    rw [hget]
    exact hE
  exact mem_take_indexOf_lt _ _ _ hb

theorem topo_acyclic {g : DepGraph} {ord : List String}
    (htopo : TopoOK g ord) (hkeys : ∀ k ∈ keysOf g, k ∈ ord)
    (hdeps : AllDepsRegistered g) : Acyclic g := by
  intro x hx
  have key : ∀ a b, Relation.TransGen (Edge g) a b →
      a ∈ ord ∧ b ∈ ord ∧ ord.indexOf b < ord.indexOf a := by
    intro a b h
    induction h with
    | @single c hE =>
      have ha : a ∈ ord := hkeys a (edge_mem_keys hE)
      have hc' : c ∈ ord := hkeys c (depsOf_subset_keys hdeps a c hE)
      exact ⟨ha, hc', topo_edge_indexOf htopo ha hE⟩
    | @tail b' c hB hE ih =>
      have hb'' : b' ∈ ord := hkeys b' (edge_mem_keys hE)
      have hc : c ∈ ord := hkeys c (depsOf_subset_keys hdeps b' c hE)
      exact ⟨ih.1, hc, lt_trans (topo_edge_indexOf htopo hb'' hE) ih.2.2⟩
  have := (key x x hx).2.2
  omega

theorem topo_append {g : DepGraph} {l : List String} {node : String}
    (ht : TopoOK g l) (hnd : ∀ d ∈ depsOf g node, d ∈ l) :
    TopoOK g (l ++ [node]) := by
  intro i hi d hd
  have hlen : i < l.length + 1 := by simpa using hi
  by_cases hlt : i < l.length
  · have hget : (l ++ [node]).get ⟨i, hi⟩ = l.get ⟨i, hlt⟩ := by
      simp [List.get_eq_getElem, List.getElem_append_left hlt]
    rw [hget] at hd
    have hin := ht i hlt d hd
    rw [List.take_append_eq_append_take]
    have : i - l.length = 0 := by omega
    simp [this, hin]
  · have hi' : i = l.length := by omega
    have hget : (l ++ [node]).get ⟨i, hi⟩ = node := by
      simp [List.get_eq_getElem, List.getElem_concat_length _ _ _ hi']
    rw [hget] at hd
    rw [List.take_append_eq_append_take]
    have h0 : i - l.length = 0 := by omega
    simp [h0, List.take_of_length_le (le_of_eq hi'.symm), hnd d hd]

/-- What a successful `visit g temp node s = .ok s'` guarantees: the load
order only grows at the end; the visited set only grows, now holds `node`,
and gained no member of `temp_mark`; new visited nodes are registered
plugins (when the graph is closed under dependencies); and the state
invariant `GoodState` is preserved. -/
def VisitOk (g : DepGraph) (temp : List String) (node : String) (s s' : VisitState) : Prop :=
  (∃ t, s'.load_order = s.load_order ++ t) ∧
  (∀ x ∈ s.visited, x ∈ s'.visited) ∧
  node ∈ s'.visited ∧
  (∀ x ∈ temp, x ∈ s'.visited → x ∈ s.visited) ∧
  (AllDepsRegistered g → node ∈ keysOf g →
    ∀ x ∈ s'.visited, x ∈ s.visited ∨ x ∈ keysOf g) ∧
  (GoodState g s → GoodState g s')

/-- What a successful dependency loop `visitList … = .ok s'` guarantees. -/
def ListOk (g : DepGraph) (temp : List String) (deps : List String) (s s' : VisitState) : Prop :=
  (∃ t, s'.load_order = s.load_order ++ t) ∧
  (∀ x ∈ s.visited, x ∈ s'.visited) ∧
  (∀ d ∈ deps, d ∈ s'.visited) ∧
  (∀ x ∈ temp, x ∈ s'.visited → x ∈ s.visited) ∧
  (AllDepsRegistered g → (∀ d ∈ deps, d ∈ keysOf g) →
    ∀ x ∈ s'.visited, x ∈ s.visited ∨ x ∈ keysOf g) ∧
  (GoodState g s → GoodState g s')

theorem visit_mem_temp {g : DepGraph} {temp : List String} {node : String} {s : VisitState}
    (h : node ∈ temp) : visit g temp node s = .error (.circular node) := by
  rw [visit]
  simp [h]

theorem visit_visited {g : DepGraph} {temp : List String} {node : String} {s : VisitState}
    (h1 : node ∉ temp) (h2 : node ∈ s.visited) : visit g temp node s = .ok s := by
  rw [visit]
  simp [h1, h2]

theorem visit_not_registered {g : DepGraph} {temp : List String} {node : String} {s : VisitState}
    (h1 : node ∉ temp) (h2 : node ∉ s.visited) (h3 : alookupG node g = none) :
    visit g temp node s = .ok ⟨node :: s.visited, s.load_order ++ [node]⟩ := by
  rw [visit]
  simp only [if_neg h1, if_neg h2]
  split
  · rfl
  · rename_i deps heq
    rw [h3] at heq
    cases heq

theorem visit_registered {g : DepGraph} {temp : List String} {node : String} {s : VisitState}
    {deps : List String} (h1 : node ∉ temp) (h2 : node ∉ s.visited)
    (h3 : alookupG node g = some deps) :
    visit g temp node s =
      match visitList g (node :: temp) deps s with
      | .error e => .error e
      | .ok s' => .ok ⟨node :: s'.visited, s'.load_order ++ [node]⟩ := by
  rw [visit]
  simp only [if_neg h1, if_neg h2]
  split
  · rename_i heq
    rw [h3] at heq
    cases heq
  · rename_i deps' heq
    rw [h3] at heq
    injection heq with hd
    subst hd
    rfl

theorem visitList_nil {g : DepGraph} {temp : List String} {s : VisitState} :
    visitList g temp [] s = .ok s := by
  rw [visitList]

theorem visitList_cons {g : DepGraph} {temp : List String} {d : String} {rest : List String}
    {s : VisitState} :
    visitList g temp (d :: rest) s =
      match visit g temp d s with
      | .error e => .error e
      | .ok s' => visitList g temp rest s' := by
  rw [visitList]

theorem visit_spec (g : DepGraph) :
    (∀ (temp : List String) (node : String) (s : VisitState),
      (∀ s', visit g temp node s = .ok s' → VisitOk g temp node s s') ∧
      (∀ e, visit g temp node s = .error e → PathOK g node temp →
        ∃ x, e = .circular x ∧ OnCycle g x)) ∧
    (∀ (temp deps : List String) (s : VisitState),
      (∀ s', visitList g temp deps s = .ok s' → ListOk g temp deps s s') ∧
      (∀ e, visitList g temp deps s = .error e → (∀ d ∈ deps, PathOK g d temp) →
        ∃ x, e = .circular x ∧ OnCycle g x)) := by
  apply visit.mutual_induct g
  -- case 1: node is in-progress: a cycle is reported
  · intro temp node s h
    constructor
    · intro s' hok
      rw [visit_mem_temp h] at hok
      cases hok
    · intro e herr hpath
      rw [visit_mem_temp h] at herr
      injection herr with he
      exact ⟨node, he.symm, pathok_transGen g temp node node hpath h⟩
  -- case 2: node already done: no change
  · intro temp node s h1 h2
    constructor
    · intro s' hok
      rw [visit_visited h1 h2] at hok
      injection hok with hs
      subst hs
      exact ⟨⟨[], by simp⟩, fun x hx => hx, h2, fun x _ hx => hx,
        fun _ _ x hx => Or.inl hx, id⟩
    · intro e herr
      rw [visit_visited h1 h2] at herr
      cases herr
  -- case 3: node has no graph entry: empty dependency loop, append node
  · intro temp node s h1 h2 h3
    constructor
    · intro s' hok
      rw [visit_not_registered h1 h2 h3] at hok
      injection hok with hs
      subst hs
      refine ⟨⟨[node], rfl⟩, fun x hx => List.mem_cons_of_mem _ hx,
        List.mem_cons_self _ _, ?_, ?_, ?_⟩
      · intro x hxt hxv
        rcases List.mem_cons.mp hxv with rfl | hxv'
        · exact absurd hxt h1
        · exact hxv'
      · intro _ hkey x hxv
        rcases List.mem_cons.mp hxv with rfl | hxv'
        · exact Or.inr hkey
        · exact Or.inl hxv'
      · rintro ⟨gs1, gs2, gs3⟩
        refine ⟨by simp [List.reverse_append, gs1], ?_, ?_⟩
        · rw [List.nodup_append]
          refine ⟨gs2, List.nodup_singleton _, ?_⟩
          intro x hx hx'
          rw [List.mem_singleton] at hx'
          subst hx'
          exact h2 (by rw [gs1]; exact List.mem_reverse.mpr hx)
        · apply topo_append gs3
          intro d hd
          unfold depsOf at hd
          rw [h3] at hd
          cases hd
    · intro e herr
      rw [visit_not_registered h1 h2 h3] at herr
      cases herr
  -- case 4: dependency loop fails: the error propagates
  · intro temp node s h1 h2 deps h3 e0 hLerr ih
    constructor
    · intro s' hok
      rw [visit_registered h1 h2 h3, hLerr] at hok
      cases hok
    · intro e herr hpath
      rw [visit_registered h1 h2 h3, hLerr] at herr
      injection herr with he
      subst he
      apply ih.2 e0 hLerr
      intro d hd
      refine ⟨?_, hpath⟩
      unfold Edge depsOf
      rw [h3]
      exact hd
  -- case 5: dependency loop succeeds: append node after its dependencies
  · intro temp node s h1 h2 deps h3 s0 hLok ih
    constructor
    · intro s' hok
      rw [visit_registered h1 h2 h3, hLok] at hok
      injection hok with hs
      subst hs
      obtain ⟨⟨t, ht⟩, lmono, ldeps, lprot, lkeys, lgood⟩ := ih.1 s0 hLok
      refine ⟨⟨t ++ [node], by rw [ht, List.append_assoc]⟩,
        fun x hx => List.mem_cons_of_mem _ (lmono x hx),
        List.mem_cons_self _ _, ?_, ?_, ?_⟩
      · intro x hxt hxv
        rcases List.mem_cons.mp hxv with rfl | hxv'
        · exact absurd hxt h1
        · exact lprot x (List.mem_cons_of_mem _ hxt) hxv'
      · intro hall hkey x hxv
        rcases List.mem_cons.mp hxv with rfl | hxv'
        · exact Or.inr hkey
        · exact lkeys hall (fun d hd => hall (node, deps) (alookupG_mem h3) d hd) x hxv'
      · intro gs
        obtain ⟨g1, g2, g3⟩ := lgood gs
        refine ⟨by simp [List.reverse_append, g1], ?_, ?_⟩
        · rw [List.nodup_append]
          refine ⟨g2, List.nodup_singleton _, ?_⟩
          intro x hx hx'
          rw [List.mem_singleton] at hx'
          subst hx'
          have hv : x ∈ s0.visited := by rw [g1]; exact List.mem_reverse.mpr hx
          exact h2 (lprot x (List.mem_cons_self _ _) hv)
        · apply topo_append g3
          intro d hd
          have hd' : d ∈ deps := by
            unfold depsOf at hd
            rw [h3] at hd
            exact hd
          have hv := ldeps d hd'
          rw [g1] at hv
          exact List.mem_reverse.mp hv
    · intro e herr
      rw [visit_registered h1 h2 h3, hLok] at herr
      cases herr
  -- case 6: empty dependency list
  · intro temp s
    constructor
    · intro s' hok
      rw [visitList_nil] at hok
      injection hok with hs
      subst hs
      exact ⟨⟨[], by simp⟩, fun x hx => hx, fun d hd => absurd hd (List.not_mem_nil d),
        fun x _ hx => hx, fun _ _ x hx => Or.inl hx, id⟩
    · intro e herr
      rw [visitList_nil] at herr
      cases herr
  -- case 7: the head dependency's visit fails
  · intro temp s d rest e0 hVerr ih
    constructor
    · intro s' hok
      rw [visitList_cons, hVerr] at hok
      cases hok
    · intro e herr hpaths
      rw [visitList_cons, hVerr] at herr
      injection herr with he
      subst he
      exact ih.2 e0 hVerr (hpaths d (List.mem_cons_self _ _))
  -- case 8: the head dependency's visit succeeds; continue with the rest
  · intro temp s d rest s0 hVok ih1 ih2
    constructor
    · intro s' hok
      rw [visitList_cons, hVok] at hok
      obtain ⟨⟨t1, ht1⟩, vmono, vmem, vprot, vkeys, vgood⟩ := ih1.1 s0 hVok
      obtain ⟨⟨t2, ht2⟩, lmono, ldeps, lprot, lkeys, lgood⟩ := ih2.1 s' hok
      refine ⟨⟨t1 ++ t2, by rw [ht2, ht1, List.append_assoc]⟩,
        fun x hx => lmono x (vmono x hx), ?_, ?_, ?_, fun gs => lgood (vgood gs)⟩
      · intro d' hd'
        rcases List.mem_cons.mp hd' with rfl | hd''
        · exact lmono d' (vmem)
        · exact ldeps d' hd''
      · intro x hxt hxv
        exact vprot x hxt (lprot x hxt hxv)
      · intro hall hkey x hxv
        rcases lkeys hall (fun d' hd' => hkey d' (List.mem_cons_of_mem _ hd')) x hxv with
          h | h
        · exact vkeys hall (hkey d (List.mem_cons_self _ _)) x h
        · exact Or.inr h
    · intro e herr hpaths
      rw [visitList_cons, hVok] at herr
      exact ih2.2 e herr (fun d' hd' => hpaths d' (List.mem_cons_of_mem _ hd'))

theorem visitFold_spec (g : DepGraph) :
    ∀ (ps : List String) (s : VisitState),
      (∀ s', visitFold g ps s = .ok s' →
        (∃ t, s'.load_order = s.load_order ++ t) ∧
        (∀ x ∈ s.visited, x ∈ s'.visited) ∧
        (∀ p ∈ ps, p ∈ s'.visited) ∧
        (AllDepsRegistered g → (∀ p ∈ ps, p ∈ keysOf g) →
          ∀ x ∈ s'.visited, x ∈ s.visited ∨ x ∈ keysOf g) ∧
        (GoodState g s → GoodState g s')) ∧
      (∀ e, visitFold g ps s = .error e → ∃ x, e = .circular x ∧ OnCycle g x) := by
  intro ps
  induction ps with
  | nil =>
    intro s
    constructor
    · intro s' hok
      simp only [visitFold] at hok
      injection hok with hs
      subst hs
      exact ⟨⟨[], by simp⟩, fun x hx => hx, fun p hp => absurd hp (List.not_mem_nil p),
        fun _ _ x hx => Or.inl hx, id⟩
    · intro e herr
      simp only [visitFold] at herr
      cases herr
  | cons p rest ih =>
    intro s
    by_cases hp : p ∈ s.visited
    · constructor
      · intro s' hok
        simp only [visitFold, if_pos hp] at hok
        obtain ⟨hpre, hmono, hmem, hkeys, hgood⟩ := (ih s).1 s' hok
        refine ⟨hpre, hmono, ?_, ?_, hgood⟩
        · intro q hq
          rcases List.mem_cons.mp hq with rfl | hq'
          · exact hmono q hp
          · exact hmem q hq'
        · intro hall hk x hx
          exact hkeys hall (fun q hq => hk q (List.mem_cons_of_mem _ hq)) x hx
      · intro e herr
        simp only [visitFold, if_pos hp] at herr
        exact (ih s).2 e herr
    · cases hv : visit g [] p s with
      | error e0 =>
        constructor
        · intro s' hok
          simp only [visitFold, if_neg hp] at hok
          rw [hv] at hok
          cases hok
        · intro e herr
          simp only [visitFold, if_neg hp] at herr
          rw [hv] at herr
          injection herr with he
          subst he
          exact ((visit_spec g).1 [] p s).2 e0 hv trivial
      | ok s0 =>
        constructor
        · intro s' hok
          simp only [visitFold, if_neg hp] at hok
          rw [hv] at hok
          obtain ⟨⟨t1, ht1⟩, vmono, vmem, -, vkeys, vgood⟩ := ((visit_spec g).1 [] p s).1 s0 hv
          obtain ⟨⟨t2, ht2⟩, fmono, fmem, fkeys, fgood⟩ := (ih s0).1 s' hok
          refine ⟨⟨t1 ++ t2, by rw [ht2, ht1, List.append_assoc]⟩,
            fun x hx => fmono x (vmono x hx), ?_, ?_, fun gs => fgood (vgood gs)⟩
          · intro q hq
            rcases List.mem_cons.mp hq with rfl | hq'
            · exact fmono q vmem
            · exact fmem q hq'
          · intro hall hk x hx
            rcases fkeys hall (fun q hq => hk q (List.mem_cons_of_mem _ hq)) x hx with h | h
            · exact vkeys hall (hk p (List.mem_cons_self _ _)) x h
            · exact Or.inr h
        · intro e herr
          simp only [visitFold, if_neg hp] at herr
          rw [hv] at herr
          exact (ih s0).2 e herr

theorem findMissing_eq_none (avail : List String) (g : DepGraph)
    (h : ∀ p ∈ g, ∀ d ∈ p.2, d ∈ avail) : findMissing avail g = none := by
  induction g with
  | nil => rfl
  | cons hd rest ih =>
    obtain ⟨p, deps⟩ := hd
    have hf : List.find? (fun d => !(decide (d ∈ avail))) deps = none := by
      rw [List.find?_eq_none]
      intro d hd
      simp [h (p, deps) (List.mem_cons_self _ _) d hd]
    simp only [findMissing, hf]
    exact ih fun q hq => h q (List.mem_cons_of_mem _ hq)

theorem findMissing_finds (avail : List String) (g : DepGraph)
    (hviol : ∃ p ∈ g, ∃ d ∈ p.2, d ∉ avail) :
    ∃ X Y, findMissing avail g = some (X, Y) ∧
      ∃ deps, (X, deps) ∈ g ∧ Y ∈ deps ∧ Y ∉ avail := by
  induction g with
  | nil => obtain ⟨p, hp, -⟩ := hviol; cases hp
  | cons hd rest ih =>
    obtain ⟨p, deps⟩ := hd
    cases hf : List.find? (fun d => !(decide (d ∈ avail))) deps with
    | some d =>
      have hd := List.find?_some hf
      have hdm := List.mem_of_find?_eq_some hf
      refine ⟨p, d, by simp [findMissing, hf], deps, List.mem_cons_self _ _, hdm, ?_⟩
      simpa using hd
    | none =>
      have hnone : ∀ d ∈ deps, d ∈ avail := by
        intro d hd
        have := List.find?_eq_none.mp hf d hd
        simpa using this
      obtain ⟨q, hq, d, hd, hdn⟩ := hviol
      rcases List.mem_cons.mp hq with rfl | hq'
      · exact absurd (hnone d hd) hdn
      · obtain ⟨X, Y, hfm, deps', hmem, hy, hyn⟩ := ih ⟨q, hq', d, hd, hdn⟩
        exact ⟨X, Y, by simp [findMissing, hf, hfm], deps',
          List.mem_cons_of_mem _ hmem, hy, hyn⟩

/-- C4: for a registered plugin set whose declared dependencies are all
registered, `resolve()` either returns — when the graph is acyclic — a
duplicate-free order containing exactly the registered plugins in which
every plugin's dependencies occur strictly earlier, or — when the graph has
a cycle — raises `CircularDependencyError` naming a plugin that lies on a
cycle. -/
theorem C4_resolve_topological_or_cycle (g : DepGraph) (hdeps : AllDepsRegistered g) :
    (Acyclic g → ∃ ord, resolve g = .ok ord ∧ ord.Nodup ∧
      (∀ k, k ∈ ord ↔ k ∈ keysOf g) ∧ TopoOK g ord) ∧
    ((∃ x, OnCycle g x) →
      ∃ x, resolve g = .error (.circular x) ∧ OnCycle g x) := by
  have hval : validateDependencies g = .ok () := by
    unfold validateDependencies
    rw [findMissing_eq_none _ _ hdeps]
  have hinit : GoodState g ⟨[], []⟩ :=
    ⟨rfl, List.nodup_nil, fun i hi => absurd hi (by simp)⟩
  constructor
  · intro hacyc
    cases hres : visitFold g (keysOf g) ⟨[], []⟩ with
    | error e =>
      obtain ⟨x, -, hcyc⟩ := (visitFold_spec g (keysOf g) ⟨[], []⟩).2 e hres
      exact absurd hcyc (hacyc x)
    | ok s =>
      obtain ⟨-, -, hmem, hkeys, hgood⟩ := (visitFold_spec g (keysOf g) ⟨[], []⟩).1 s hres
      obtain ⟨g1, g2, g3⟩ := hgood hinit
      refine ⟨s.load_order, ?_, g2, ?_, g3⟩
      · unfold resolve
        rw [hval, hres]
      · intro k
        constructor
        · intro hk
          have hkv : k ∈ s.visited := by rw [g1]; exact List.mem_reverse.mpr hk
          rcases hkeys hdeps (fun p hp => hp) k hkv with h | h
          · cases h
          · exact h
        · intro hk
          have := hmem k hk
          rw [g1] at this
          exact List.mem_reverse.mp this
  · rintro ⟨x0, hx0⟩
    cases hres : visitFold g (keysOf g) ⟨[], []⟩ with
    | ok s =>
      exfalso
      obtain ⟨-, -, hmem, -, hgood⟩ := (visitFold_spec g (keysOf g) ⟨[], []⟩).1 s hres
      obtain ⟨g1, -, g3⟩ := hgood hinit
      have hkeys : ∀ k ∈ keysOf g, k ∈ s.load_order := by
        intro k hk
        have := hmem k hk
        rw [g1] at this
        exact List.mem_reverse.mp this
      exact topo_acyclic g3 hkeys hdeps x0 hx0
    | error e =>
      obtain ⟨x, rfl, hcyc⟩ := (visitFold_spec g (keysOf g) ⟨[], []⟩).2 e hres
      refine ⟨x, ?_, hcyc⟩
      unfold resolve
      rw [hval, hres]

/-- Witness for C4 at the spec's example graph
`a: [], b: [a], c: [a, b]` (all dependencies registered; the resolver
produces the order `[a, b, c]`). -/
theorem C4_witness :
    AllDepsRegistered [("a", []), ("b", ["a"]), ("c", ["a", "b"])] ∧
    resolve [("a", []), ("b", ["a"]), ("c", ["a", "b"])] = .ok ["a", "b", "c"] ∧
    ((Acyclic [("a", []), ("b", ["a"]), ("c", ["a", "b"])] →
      ∃ ord, resolve [("a", []), ("b", ["a"]), ("c", ["a", "b"])] = .ok ord ∧ ord.Nodup ∧
        (∀ k, k ∈ ord ↔ k ∈ keysOf [("a", []), ("b", ["a"]), ("c", ["a", "b"])]) ∧
        TopoOK [("a", []), ("b", ["a"]), ("c", ["a", "b"])] ord) ∧
    ((∃ x, OnCycle [("a", []), ("b", ["a"]), ("c", ["a", "b"])] x) →
      ∃ x, resolve [("a", []), ("b", ["a"]), ("c", ["a", "b"])] = .error (.circular x) ∧
        OnCycle [("a", []), ("b", ["a"]), ("c", ["a", "b"])] x)) :=
  ⟨by decide,
    by simp [resolve, validateDependencies, findMissing, keysOf, visitFold, visit, visitList,
      alookupG],
    C4_resolve_topological_or_cycle [("a", []), ("b", ["a"]), ("c", ["a", "b"])] (by decide)⟩

/-- C6: whenever some registered plugin declares an unregistered dependency,
`resolve()` raises `MissingDependencyError` for a violating pair `(X, Y)` —
`X` registered, `Y` declared by `X` but unregistered — whose message names
both `X` and `Y`; the error is produced by the `_validate_dependencies`
pre-check, before the topological traversal begins. -/
theorem C6_missing_dependency_precheck (g : DepGraph)
    (hviol : ∃ p ∈ g, ∃ d ∈ p.2, d ∉ keysOf g) :
    ∃ X Y, (∃ deps, (X, deps) ∈ g ∧ Y ∈ deps) ∧ Y ∉ keysOf g ∧
      validateDependencies g = .error (.missing X Y) ∧
      resolve g = .error (.missing X Y) ∧
      (∃ u v, (DepError.missing X Y).message = u ++ X ++ v) ∧
      (∃ u v, (DepError.missing X Y).message = u ++ Y ++ v) := by
  obtain ⟨X, Y, hfm, deps, hmem, hy, hyn⟩ := findMissing_finds (keysOf g) g hviol
  have hvd : validateDependencies g = .error (.missing X Y) := by
    unfold validateDependencies
    rw [hfm]
  refine ⟨X, Y, ⟨deps, hmem, hy⟩, hyn, hvd, ?_, ?_, ?_⟩
  · unfold resolve
    rw [hvd]
  · exact ⟨"Plugin '", "' requires '" ++ Y ++ "' which is not available", by
      simp [DepError.message, String.append_assoc]⟩
  · exact ⟨"Plugin '" ++ X ++ "' requires '", "' which is not available", by
      simp [DepError.message, String.append_assoc]⟩

/-- Witness for C6: registering `x` with the unregistered dependency `y`. -/
theorem C6_witness :
    (∃ p ∈ [("x", ["y"])], ∃ d ∈ p.2, d ∉ keysOf [("x", ["y"])]) ∧
    (∃ X Y, (∃ deps, (X, deps) ∈ [("x", ["y"])] ∧ Y ∈ deps) ∧
      Y ∉ keysOf [("x", ["y"])] ∧
      validateDependencies [("x", ["y"])] = .error (.missing X Y) ∧
      resolve [("x", ["y"])] = .error (.missing X Y) ∧
      (∃ u v, (DepError.missing X Y).message = u ++ X ++ v) ∧
      (∃ u v, (DepError.missing X Y).message = u ++ Y ++ v)) :=
  ⟨by decide, C6_missing_dependency_precheck [("x", ["y"])] (by decide)⟩

/-! ## base.py / loader.py — `PluginStatus`, `PluginLoader`, `PluginManager` -/

/-- `PluginStatus` (base.py). -/
inductive PluginStatus where
  | UNLOADED
  | LOADING
  | LOADED
  | ACTIVE
  | FAILED
  | DISABLED
deriving Repr, DecidableEq

/-- The environment-dependent outcomes of the dynamic pieces of
`load_plugin`, which the source obtains by runtime reflection and by
executing plugin code: whether the type resolved from the entry point
subclasses `PluginInterface`, whether `plugin_class(manifest)` raises, and
what the instance's `initialize(config)` and `validate()` calls do
(`.error` models a raised exception, `.ok b` a returned boolean). -/
structure ResolvedClass where
  class_name : String
  isSubclassOfInterface : Bool
  instantiationRaises : Option String
  initializeResult : Except String Bool
  validateResult : Except String Bool
deriving Repr

/-- The tail of `_load_plugin_class`: the capability check
`issubclass(plugin_class, PluginInterface)`; its `PluginLoadError` is raised
before the `try` block of `load_plugin` and is not re-wrapped. -/
def loadPluginClass (rc : ResolvedClass) : Except String ResolvedClass :=
  if rc.isSubclassOfInterface then .ok rc
  else .error (rc.class_name ++ " must inherit from PluginInterface")

/-- The manifest fields `load_plugin` reads. -/
structure LoaderManifest where
  name : String
  entry_point : String
  requires_version : Option String
deriving Repr, DecidableEq

/-- `PluginLoader.load_plugin(plugin_info, config)`. The first component is
the call's outcome (`.error` carries the `PluginLoadError` message); the
second is the status of the plugin instance if one was created (`none` when
failure struck before instantiation). Inside the `try` block every raised
exception — including the `PluginLoadError`s for a false `initialize` or
`validate` — is re-wrapped as `"Failed to load plugin <name>: <e>"`. The
`except` clause re-raises without ever assigning `PluginStatus.FAILED`, so a
created instance keeps the `LOADING` status set before `initialize`. -/
def loadPlugin (checker : VersionChecker) (m : LoaderManifest) (rc : ResolvedClass) :
    Except String Unit × Option PluginStatus :=
  let res := checkPluginCompatibility checker m.name (m.requires_version.getD "0.0.0")
  if !res.1 then (.error res.2, none)
  else
    match loadPluginClass rc with
    | .error e => (.error e, none)
    | .ok cls =>
      match cls.instantiationRaises with
      | some e => (.error ("Failed to load plugin " ++ m.name ++ ": " ++ e), none)
      | none =>
        match cls.initializeResult with
        | .error e => (.error ("Failed to load plugin " ++ m.name ++ ": " ++ e),
            some .LOADING)
        | .ok false =>
          (.error ("Failed to load plugin " ++ m.name ++ ": Plugin " ++ m.name
            ++ " initialization failed"), some .LOADING)
        | .ok true =>
          match cls.validateResult with
          | .error e => (.error ("Failed to load plugin " ++ m.name ++ ": " ++ e),
              some .LOADING)
          | .ok false =>
            (.error ("Failed to load plugin " ++ m.name ++ ": Plugin " ++ m.name
              ++ " validation failed"), some .LOADING)
          | .ok true => (.ok (), some .LOADED)

/-- A loaded plugin instance as `unload_plugin` observes it: its status and
whether `cleanup()` has been called on it. -/
structure PluginInstanceState where
  status : PluginStatus
  cleaned : Bool
deriving Repr, DecidableEq

/-- The `PluginManager` state `unload_plugin` touches: the dependency
resolver's graph and the `loaded_plugins` map. -/
structure ManagerState where
  resolver : DepGraph
  loaded : List (String × PluginInstanceState)
deriving Repr, DecidableEq

/-- `PluginManager.unload_plugin(name)`: a no-op when the plugin is not
loaded; raises naming the dependents when `can_unload` is false; otherwise
calls `cleanup()` on the instance, sets its status to `UNLOADED` and deletes
it from `loaded_plugins`. The dependency resolver's graph is never updated.
The second component of a successful result is the final state of the
removed instance. -/
def unloadPlugin (st : ManagerState) (plugin_name : String) :
    Except String (ManagerState × Option PluginInstanceState) :=
  match alookupG plugin_name st.loaded with
  | none => .ok (st, none)
  | some _ =>
    if !canUnload st.resolver plugin_name then
      .error ("Cannot unload " ++ plugin_name ++ ": required by "
        ++ String.intercalate ", " (getDependents st.resolver plugin_name))
    else
      .ok ({ st with loaded := aerase plugin_name st.loaded }, some ⟨.UNLOADED, true⟩)

instance {ε α : Type} [DecidableEq ε] [DecidableEq α] : DecidableEq (Except ε α)
  | .error e, .error e' =>
    if h : e = e' then .isTrue (by rw [h])
    else .isFalse (by intro hh; injection hh; contradiction)
  | .error _, .ok _ => .isFalse (by intro hh; cases hh)
  | .ok _, .error _ => .isFalse (by intro hh; cases hh)
  | .ok a, .ok a' =>
    if h : a = a' then .isTrue (by rw [h])
    else .isFalse (by intro hh; injection hh; contradiction)

/-- C1 (amended): whenever `load_plugin` fails after the version check
passed — the resolved type does not implement the plugin interface,
instantiation raises, `initialize(config)` returns false or raises, or
`validate()` returns false or raises — it raises a `PluginLoadError`, and
the instance's status is never `LOADED`; but it is never `FAILED` either:
the failure paths leave a created instance at `LOADING` (the source never
assigns `PluginStatus.FAILED`). -/
theorem C1_load_failure_never_loaded_never_failed
    (checker : VersionChecker) (m : LoaderManifest) (rc : ResolvedClass)
    (hcompat : (checkPluginCompatibility checker m.name
      (m.requires_version.getD "0.0.0")).1 = true)
    (hfail : rc.isSubclassOfInterface = false ∨ rc.instantiationRaises ≠ none ∨
      rc.initializeResult ≠ .ok true ∨ rc.validateResult ≠ .ok true) :
    (∃ e, (loadPlugin checker m rc).1 = .error e) ∧
    (loadPlugin checker m rc).2 ≠ some PluginStatus.LOADED ∧
    (loadPlugin checker m rc).2 ≠ some PluginStatus.FAILED := by
  cases hsub : rc.isSubclassOfInterface with
  | false =>
    simp only [loadPlugin, loadPluginClass, hcompat, hsub, Bool.not_true, if_false,
      Bool.false_eq_true, if_neg (by simp : ¬(false = true))]
    exact ⟨⟨_, rfl⟩, by simp, by simp⟩
  | true =>
    cases hinst : rc.instantiationRaises with
    | some e0 =>
      simp only [loadPlugin, loadPluginClass, hcompat, hsub, if_true, Bool.not_true,
        if_neg (by simp : ¬(false = true)), hinst]
      exact ⟨⟨_, rfl⟩, by simp, by simp⟩
    | none =>
      cases hinit : rc.initializeResult with
      | error e0 =>
        simp only [loadPlugin, loadPluginClass, hcompat, hsub, if_true, Bool.not_true,
          if_neg (by simp : ¬(false = true)), hinst, hinit]
        exact ⟨⟨_, rfl⟩, by simp, by simp⟩
      | ok b =>
        cases b with
        | false =>
          simp only [loadPlugin, loadPluginClass, hcompat, hsub, if_true, Bool.not_true,
            if_neg (by simp : ¬(false = true)), hinst, hinit]
          exact ⟨⟨_, rfl⟩, by simp, by simp⟩
        | true =>
          cases hvalid : rc.validateResult with
          | error e0 =>
            simp only [loadPlugin, loadPluginClass, hcompat, hsub, if_true, Bool.not_true,
              if_neg (by simp : ¬(false = true)), hinst, hinit, hvalid]
            exact ⟨⟨_, rfl⟩, by simp, by simp⟩
          | ok b' =>
            cases b' with
            | false =>
              simp only [loadPlugin, loadPluginClass, hcompat, hsub, if_true, Bool.not_true,
                if_neg (by simp : ¬(false = true)), hinst, hinit, hvalid]
              exact ⟨⟨_, rfl⟩, by simp, by simp⟩
            | true =>
              rcases hfail with h | h | h | h
              · rw [hsub] at h; cases h
              · rw [hinst] at h; exact absurd rfl h
              · rw [hinit] at h; exact absurd rfl h
              · rw [hvalid] at h; exact absurd rfl h

/-- C1 counterexample: the version check passes, `initialize` returns
false, `load_plugin` raises — and the instance's status is `LOADING`, not
`FAILED` as the claim asserts. -/
theorem C1_counterexample :
    (loadPlugin ⟨⟨1, 0, 0, "", ""⟩⟩ ⟨"p", "mod.Cls", some "1.0.0"⟩
        ⟨"Cls", true, none, .ok false, .ok true⟩).1
      = .error "Failed to load plugin p: Plugin p initialization failed" ∧
    (loadPlugin ⟨⟨1, 0, 0, "", ""⟩⟩ ⟨"p", "mod.Cls", some "1.0.0"⟩
        ⟨"Cls", true, none, .ok false, .ok true⟩).2
      = some PluginStatus.LOADING ∧
    some PluginStatus.LOADING ≠ some PluginStatus.FAILED := by
  refine ⟨by rfl, by rfl, by decide⟩

/-- Witness for C1 at the counterexample's input. -/
theorem C1_witness :
    (checkPluginCompatibility ⟨⟨1, 0, 0, "", ""⟩⟩ "p"
      ((some "1.0.0").getD "0.0.0")).1 = true ∧
    ((true = false) ∨ (none : Option String) ≠ none ∨
      (Except.ok false : Except String Bool) ≠ .ok true ∨
      (Except.ok true : Except String Bool) ≠ .ok true) ∧
    ((∃ e, (loadPlugin ⟨⟨1, 0, 0, "", ""⟩⟩ ⟨"p", "mod.Cls", some "1.0.0"⟩
        ⟨"Cls", true, none, .ok false, .ok true⟩).1 = .error e) ∧
      (loadPlugin ⟨⟨1, 0, 0, "", ""⟩⟩ ⟨"p", "mod.Cls", some "1.0.0"⟩
        ⟨"Cls", true, none, .ok false, .ok true⟩).2 ≠ some PluginStatus.LOADED ∧
      (loadPlugin ⟨⟨1, 0, 0, "", ""⟩⟩ ⟨"p", "mod.Cls", some "1.0.0"⟩
        ⟨"Cls", true, none, .ok false, .ok true⟩).2 ≠ some PluginStatus.FAILED) :=
  ⟨by rfl, by decide,
    C1_load_failure_never_loaded_never_failed ⟨⟨1, 0, 0, "", ""⟩⟩
      ⟨"p", "mod.Cls", some "1.0.0"⟩ ⟨"Cls", true, none, .ok false, .ok true⟩
      (by rfl) (by decide)⟩

/-- C3: with the default host version `"1.0.0"` and the default
`requires_version` `"0.0.0"` substituted for a manifest that omits the
field, the compatibility check fails (the host major 1 differs from the
required major 0), so `load_plugin` raises `PluginLoadError` for every
plugin that does not declare a `requires_version`. -/
theorem C3_default_versions_incompatible :
    versionChecker "1.0.0" = .ok ⟨⟨1, 0, 0, "", ""⟩⟩ ∧
    (∀ name : String,
      (checkPluginCompatibility ⟨⟨1, 0, 0, "", ""⟩⟩ name "0.0.0").1 = false) ∧
    (∀ (m : LoaderManifest) (rc : ResolvedClass), m.requires_version = none →
      ∃ e, (loadPlugin ⟨⟨1, 0, 0, "", ""⟩⟩ m rc).1 = .error e ∧
        (loadPlugin ⟨⟨1, 0, 0, "", ""⟩⟩ m rc).2 = none) := by
  refine ⟨by rfl, fun name => by rfl, ?_⟩
  intro m rc hreq
  refine ⟨(checkPluginCompatibility ⟨⟨1, 0, 0, "", ""⟩⟩ m.name "0.0.0").2, ?_, ?_⟩
  · show (loadPlugin ⟨⟨1, 0, 0, "", ""⟩⟩ m rc).1
      = .error (checkPluginCompatibility ⟨⟨1, 0, 0, "", ""⟩⟩ m.name "0.0.0").2
    unfold loadPlugin
    rw [hreq]
    rfl
  · show (loadPlugin ⟨⟨1, 0, 0, "", ""⟩⟩ m rc).2 = none
    unfold loadPlugin
    rw [hreq]
    rfl

/-- Witness for C3 at a concrete manifest without `requires_version`. -/
theorem C3_witness :
    (LoaderManifest.requires_version ⟨"p", "mod.Cls", none⟩ = none) ∧
    (loadPlugin ⟨⟨1, 0, 0, "", ""⟩⟩ ⟨"p", "mod.Cls", none⟩
        ⟨"Cls", true, none, .ok true, .ok true⟩).1
      = .error "Plugin p requires version 0.0.0 or higher (current version: 1.0.0)" ∧
    (∃ e, (loadPlugin ⟨⟨1, 0, 0, "", ""⟩⟩ ⟨"p", "mod.Cls", none⟩
        ⟨"Cls", true, none, .ok true, .ok true⟩).1 = .error e ∧
      (loadPlugin ⟨⟨1, 0, 0, "", ""⟩⟩ ⟨"p", "mod.Cls", none⟩
        ⟨"Cls", true, none, .ok true, .ok true⟩).2 = none) :=
  ⟨by rfl, by rfl,
    C3_default_versions_incompatible.2.2 ⟨"p", "mod.Cls", none⟩
      ⟨"Cls", true, none, .ok true, .ok true⟩ (by rfl)⟩

/-- C2 evaluated at the failing input: with `a: []` and `b: [a]` registered
in the resolver and both loaded, `unload_plugin("a")` fails naming `b`;
`unload_plugin("b")` succeeds, calling `cleanup()` and returning the
instance to `UNLOADED`; but a subsequent `unload_plugin("a")` still fails
with the same error, because `unload_plugin` never removes `b` from the
dependency graph and `can_unload` consults registered — not loaded —
dependents. -/
theorem C2_unload_evaluation :
    unloadPlugin ⟨[("a", []), ("b", ["a"])],
        [("a", ⟨.LOADED, false⟩), ("b", ⟨.LOADED, false⟩)]⟩ "a"
      = .error "Cannot unload a: required by b" ∧
    unloadPlugin ⟨[("a", []), ("b", ["a"])],
        [("a", ⟨.LOADED, false⟩), ("b", ⟨.LOADED, false⟩)]⟩ "b"
      = .ok (⟨[("a", []), ("b", ["a"])], [("a", ⟨.LOADED, false⟩)]⟩,
          some ⟨PluginStatus.UNLOADED, true⟩) ∧
    unloadPlugin ⟨[("a", []), ("b", ["a"])], [("a", ⟨.LOADED, false⟩)]⟩ "a"
      = .error "Cannot unload a: required by b" := by
  refine ⟨by rfl, by rfl, by rfl⟩

end DecentClaude
